import Mathlib

/-!
Shallow embedding of the option-bloom-calculator pricing core.

Real-valued floating-point computations from the Black-Scholes module
(`normalCDF`, `normalPDF`, `calculateOptionPremium`, `calculateGreeks`)
are embedded over `ℝ` with exact arithmetic.  Computations that the
source performs with only field operations and rounding (the payoff
curve generator, the time-to-expiry conversions, and the volatility
feed message handler) are embedded over `ℚ` and are executable.
-/

namespace OptionBloom

/-! ### Normal distribution primitives (Black-Scholes module) -/

/-- Standard normal cumulative distribution function, the
Abramowitz-Stegun style approximation from the source.  The source
reassigns its parameter `x := |x| / sqrt 2`; here that value is the
local `y`. -/
noncomputable def normalCDF (x : ℝ) : ℝ :=
  let a1 : ℝ := 0.254829592
  let a2 : ℝ := -0.284496736
  let a3 : ℝ := 1.421413741
  let a4 : ℝ := -1.453152027
  let a5 : ℝ := 1.061405429
  let p : ℝ := 0.3275911
  let sign : ℝ := if x < 0 then -1 else 1
  let y : ℝ := |x| / Real.sqrt 2
  let t : ℝ := 1 / (1 + p * y)
  let erf : ℝ := 1 - ((((a5 * t + a4) * t + a3) * t + a2) * t + a1) * t * Real.exp (-(y * y))
  0.5 * (1 + sign * erf)

/-- Standard normal probability density function. -/
noncomputable def normalPDF (x : ℝ) : ℝ :=
  Real.exp (-0.5 * x * x) / Real.sqrt (2 * Real.pi)

/-! ### Pricing and Greeks engine (Black-Scholes module)

The source computes `d1` and `d2` as local constants inside both
`calculateOptionPremium` and `calculateGreeks`; the identical
expressions are hoisted here as top-level definitions. -/

noncomputable def d1 (spotPrice strikePrice timeToExpiry volatility riskFreeRate : ℝ) : ℝ :=
  (Real.log (spotPrice / strikePrice) +
      (riskFreeRate + 0.5 * volatility * volatility) * timeToExpiry) /
    (volatility * Real.sqrt timeToExpiry)

noncomputable def d2 (spotPrice strikePrice timeToExpiry volatility riskFreeRate : ℝ) : ℝ :=
  d1 spotPrice strikePrice timeToExpiry volatility riskFreeRate -
    volatility * Real.sqrt timeToExpiry

/-- Black-Scholes-Merton premium for a European option. -/
noncomputable def calculateOptionPremium (spotPrice strikePrice timeToExpiry volatility
    riskFreeRate : ℝ) (isCall : Bool) : ℝ :=
  if spotPrice ≤ 0 ∨ strikePrice ≤ 0 ∨ timeToExpiry ≤ 0 ∨ volatility ≤ 0 then 0
  else if isCall then
    spotPrice * normalCDF (d1 spotPrice strikePrice timeToExpiry volatility riskFreeRate) -
      strikePrice * Real.exp (-riskFreeRate * timeToExpiry) *
        normalCDF (d2 spotPrice strikePrice timeToExpiry volatility riskFreeRate)
  else
    strikePrice * Real.exp (-riskFreeRate * timeToExpiry) *
        normalCDF (-d2 spotPrice strikePrice timeToExpiry volatility riskFreeRate) -
      spotPrice * normalCDF (-d1 spotPrice strikePrice timeToExpiry volatility riskFreeRate)

/-- The record of Greeks returned by `calculateGreeks`. -/
structure Greeks where
  delta : ℝ
  gamma : ℝ
  theta : ℝ
  vega : ℝ
  rho : ℝ

/-- All five Greeks, as computed by the source. -/
noncomputable def calculateGreeks (spotPrice strikePrice timeToExpiry volatility
    riskFreeRate : ℝ) (isCall : Bool) : Greeks :=
  if spotPrice ≤ 0 ∨ strikePrice ≤ 0 ∨ timeToExpiry ≤ 0 ∨ volatility ≤ 0 then
    ⟨0, 0, 0, 0, 0⟩
  else
    let D1 := d1 spotPrice strikePrice timeToExpiry volatility riskFreeRate
    let D2 := d2 spotPrice strikePrice timeToExpiry volatility riskFreeRate
    let delta := if isCall then normalCDF D1 else normalCDF D1 - 1
    let gamma := normalPDF D1 / (spotPrice * volatility * Real.sqrt timeToExpiry)
    let vega := spotPrice * normalPDF D1 * Real.sqrt timeToExpiry * 0.01
    let term1 := -(spotPrice * volatility * normalPDF D1) / (2 * Real.sqrt timeToExpiry)
    let term2 := riskFreeRate * strikePrice * Real.exp (-riskFreeRate * timeToExpiry)
    let theta := if isCall then (term1 - term2 * normalCDF D2) / 365
      else (term1 + term2 * normalCDF (-D2)) / 365
    let rho := if isCall then
        strikePrice * timeToExpiry * Real.exp (-riskFreeRate * timeToExpiry) *
          normalCDF D2 * 0.01
      else
        -strikePrice * timeToExpiry * Real.exp (-riskFreeRate * timeToExpiry) *
          normalCDF (-D2) * 0.01
    ⟨delta, gamma, theta, vega, rho⟩

/-! ### Time-to-expiry normalization (Black-Scholes module)

The source's `dateToTimeToExpiry` reads the current clock via
`new Date()`; here both the expiry instant and the current instant are
explicit millisecond timestamps. -/

def dateToTimeToExpiry (expiryMs nowMs : ℚ) : ℚ :=
  let diffMs := expiryMs - nowMs
  let diffDays := diffMs / (1000 * 60 * 60 * 24)
  diffDays / 365

def durationToTimeToExpiry (hours minutes seconds : ℚ) : ℚ :=
  let totalSeconds := hours * 3600 + minutes * 60 + seconds
  let totalDays := totalSeconds / (24 * 3600)
  totalDays / 365

/-! ### Payoff curve generator (PayoffGraph component) -/

/-- Models `Number(v.toFixed(2))`: rounding to the nearest hundredth.
The tie-breaking convention of the JavaScript primitive is immaterial
to every claim verified below. -/
def round2 (q : ℚ) : ℚ := (round (q * 100) : ℚ) / 100

/-- One sampled point of the payoff curve. -/
structure PayoffPoint where
  price : ℚ
  buyerPayoff : ℚ
  sellerPayoff : ℚ
deriving DecidableEq

/-- The buyer profit-or-loss expression of the loop body, before
rounding. -/
def buyerPayoffRaw (strikePrice premium : ℚ) (isCall : Bool) (price : ℚ) : ℚ :=
  if isCall then max 0 (price - strikePrice) - premium
  else max 0 (strikePrice - price) - premium

/-- The seller profit-or-loss expression of the loop body, before
rounding, exactly as the source writes it. -/
def sellerPayoffRaw (strikePrice premium : ℚ) (isCall : Bool) (price : ℚ) : ℚ :=
  if isCall then premium - max 0 (price - strikePrice)
  else premium - max 0 (strikePrice - price)

/-- The record pushed by one iteration of the source's sampling loop. -/
def samplePoint (strikePrice premium : ℚ) (isCall : Bool) (price : ℚ) : PayoffPoint :=
  { price := round2 price
    buyerPayoff := round2 (buyerPayoffRaw strikePrice premium isCall price)
    sellerPayoff := round2 (sellerPayoffRaw strikePrice premium isCall price) }

/-- The source's `for (price = minPrice; price <= maxPrice; price += step)`
loop.  The extra conjunct `0 < step` makes the function total: when
`step ≤ 0` and the entry condition holds, the source loop never
terminates, and that branch is unreachable for positive spot and
strike prices. -/
def payoffLoop (strikePrice premium maxPrice step : ℚ) (isCall : Bool) (price : ℚ) :
    List PayoffPoint :=
  if h : price ≤ maxPrice ∧ 0 < step then
    samplePoint strikePrice premium isCall price ::
      payoffLoop strikePrice premium maxPrice step isCall (price + step)
  else []
termination_by (⌊(maxPrice - price) / step⌋ + 1).toNat
decreasing_by
  obtain ⟨hle, hstep⟩ := h
  have hne : step ≠ 0 := ne_of_gt hstep
  have e : (maxPrice - (price + step)) / step = (maxPrice - price) / step - 1 := by
    field_simp
    ring
  have hnn : (0 : ℚ) ≤ (maxPrice - price) / step :=
    div_nonneg (sub_nonneg.mpr hle) hstep.le
  have hfl : (0 : ℤ) ≤ ⌊(maxPrice - price) / step⌋ := Int.floor_nonneg.mpr hnn
  have e2 : ⌊(maxPrice - price) / step - 1⌋ = ⌊(maxPrice - price) / step⌋ - 1 := by
    exact_mod_cast Int.floor_sub_int ((maxPrice - price) / step) 1
  rw [e, e2]
  omega

/-- The lower end of the sampled price range, a local constant of the
source's `generateData` hoisted to the top level. -/
def minPrice (spotPrice strikePrice : ℚ) : ℚ := max 0 (strikePrice - spotPrice * 0.75)

/-- The upper end of the sampled price range, a local constant of the
source's `generateData` hoisted to the top level. -/
def maxPrice (spotPrice strikePrice : ℚ) : ℚ := strikePrice + spotPrice * 0.75

/-- The sampling increment, a local constant of the source's
`generateData` hoisted to the top level. -/
def priceStep (spotPrice strikePrice : ℚ) : ℚ :=
  (maxPrice spotPrice strikePrice - minPrice spotPrice strikePrice) / 100

/-- The source's `generateData` from the payoff graph component. -/
def generateData (spotPrice strikePrice premium : ℚ) (isCall : Bool) : List PayoffPoint :=
  payoffLoop strikePrice premium (maxPrice spotPrice strikePrice)
    (priceStep spotPrice strikePrice) isCall (minPrice spotPrice strikePrice)

/-! ### Volatility feed message handler (Index page, `fetchDVOLData`) -/

/-- The value a resolved volatility fetch carries. -/
structure DVOLResponse where
  volatility : ℚ
  timestamp : ℚ
deriving DecidableEq

/-- The shape of a parsed feed message: an optional ordered result list
of `[timestamp, value]` pairs and an optional error message. -/
structure DVOLMessage where
  result : Option (List (ℚ × ℚ))
  error : Option String
deriving DecidableEq

/-- The `onmessage` handler of `fetchDVOLData`: a structurally valid
response with a non-empty result list resolves with the last element's
value passed through `Number(v.toFixed(2))`; otherwise the promise is
rejected with the carried error message or a format error. -/
def handleDVOLMessage (data : DVOLMessage) (now : ℚ) : Except String DVOLResponse :=
  match data.result with
  | some res =>
    if h : res ≠ [] then
      Except.ok { volatility := round2 (res.getLast h).2, timestamp := now }
    else
      match data.error with
      | some msg => Except.error msg
      | none => Except.error "Invalid response format"
  | none =>
    match data.error with
    | some msg => Except.error msg
    | none => Except.error "Invalid response format"

/-- Modelled from the spec: truncation of a value to 2 decimal places
(discarding digits, toward zero), the operation the specification's
feed-client sentence names; stated only to compare against the
rounding the source actually performs. -/
def truncate2 (q : ℚ) : ℚ :=
  ((if 0 ≤ q then ⌊q * 100⌋ else ⌈q * 100⌉ : ℤ) : ℚ) / 100

/-! ### Helper lemmas: rounding -/

theorem round2_mono {x y : ℚ} (h : x ≤ y) : round2 x ≤ round2 y := by
  unfold round2
  have : round (x * 100) ≤ round (y * 100) := by
    rw [round_eq, round_eq]
    exact Int.floor_mono (by linarith)
  have : ((round (x * 100) : ℤ) : ℚ) ≤ ((round (y * 100) : ℤ) : ℚ) := by exact_mod_cast this
  linarith

theorem abs_round2_add_round2_neg (x : ℚ) : |round2 x + round2 (-x)| ≤ 1 / 100 := by
  unfold round2
  have h1 : |x * 100 - round (x * 100)| ≤ 1 / 2 := abs_sub_round (x * 100)
  have h2 : |(-x) * 100 - round ((-x) * 100)| ≤ 1 / 2 := abs_sub_round ((-x) * 100)
  rw [abs_le] at h1 h2 ⊢
  obtain ⟨h1a, h1b⟩ := h1
  obtain ⟨h2a, h2b⟩ := h2
  constructor <;> nlinarith [h1a, h1b, h2a, h2b]

/-! ### Helper lemmas: the sampling loop -/

theorem payoffLoop_spec (strikePrice premium step : ℚ) (isCall : Bool) (hstep : 0 < step) :
    ∀ (n : ℕ) (price maxPrice : ℚ), maxPrice = price + n * step →
      payoffLoop strikePrice premium maxPrice step isCall price =
        (List.range (n + 1)).map
          (fun k : ℕ => samplePoint strikePrice premium isCall (price + (k : ℚ) * step)) := by
  intro n
  induction n with
  | zero =>
    intro price maxPrice hmax
    rw [payoffLoop]
    have hc : price ≤ maxPrice ∧ 0 < step := ⟨by simp [hmax], hstep⟩
    rw [dif_pos hc, payoffLoop]
    have hc2 : ¬(price + step ≤ maxPrice ∧ 0 < step) := by
      rintro ⟨hle, -⟩
      simp only [hmax] at hle
      norm_num at hle
      exact absurd hle (not_le.mpr hstep)
    rw [dif_neg hc2]
    rw [show (0 : ℕ) + 1 = 1 from rfl, List.range_succ, List.range_zero]
    simp
  | succ n ih =>
    intro price maxPrice hmax
    rw [payoffLoop]
    have hc : price ≤ maxPrice ∧ 0 < step := by
      refine ⟨?_, hstep⟩
      have : (0 : ℚ) ≤ (n + 1 : ℕ) * step := by positivity
      linarith [hmax ▸ le_refl maxPrice, this]
    rw [dif_pos hc]
    have hmax' : maxPrice = (price + step) + n * step := by
      rw [hmax]
      push_cast
      ring
    rw [ih (price + step) maxPrice hmax']
    conv_rhs => rw [List.range_succ_eq_map]
    simp only [List.map_cons, List.map_map, Nat.cast_zero, zero_mul, add_zero]
    congr 1
    apply List.map_congr_left
    intro k _
    simp only [Function.comp_apply, Nat.succ_eq_add_one]
    congr 1
    push_cast
    ring

theorem minPrice_lt_maxPrice (spotPrice strikePrice : ℚ) (hS : 0 < spotPrice)
    (hK : 0 < strikePrice) :
    minPrice spotPrice strikePrice < maxPrice spotPrice strikePrice := by
  unfold minPrice maxPrice
  apply max_lt
  · positivity
  · nlinarith

theorem priceStep_pos (spotPrice strikePrice : ℚ) (hS : 0 < spotPrice)
    (hK : 0 < strikePrice) : 0 < priceStep spotPrice strikePrice :=
  div_pos (sub_pos.mpr (minPrice_lt_maxPrice spotPrice strikePrice hS hK)) (by norm_num)

theorem generateData_eq (spotPrice strikePrice premium : ℚ) (isCall : Bool)
    (hS : 0 < spotPrice) (hK : 0 < strikePrice) :
    generateData spotPrice strikePrice premium isCall =
      (List.range 101).map (fun k : ℕ =>
        samplePoint strikePrice premium isCall
          (minPrice spotPrice strikePrice + (k : ℚ) * priceStep spotPrice strikePrice)) := by
  apply payoffLoop_spec strikePrice premium _ isCall
    (priceStep_pos spotPrice strikePrice hS hK) 100
  unfold priceStep
  push_cast
  ring

theorem sellerPayoffRaw_eq_neg (strikePrice premium : ℚ) (isCall : Bool) (price : ℚ) :
    sellerPayoffRaw strikePrice premium isCall price =
      -buyerPayoffRaw strikePrice premium isCall price := by
  cases isCall <;> simp [sellerPayoffRaw, buyerPayoffRaw]

/-- C5: at every sampled price `p` of the generated payoff curve the unrounded
buyer profit-or-loss is `max 0 (p − K) − premium` for a call and
`max 0 (K − p) − premium` for a put, the unrounded seller value is its exact
arithmetic negation (their sum is exactly zero), and the stored values, each
rounded to 2 decimal places, sum to at most one cent in absolute value. -/
theorem payoff_zero_sum (spotPrice strikePrice premium : ℚ) (isCall : Bool)
    (hS : 0 < spotPrice) (hK : 0 < strikePrice) :
    ∀ pt ∈ generateData spotPrice strikePrice premium isCall, ∃ p : ℚ,
      pt.price = round2 p ∧
      buyerPayoffRaw strikePrice premium isCall p =
        (if isCall then max 0 (p - strikePrice) else max 0 (strikePrice - p)) - premium ∧
      sellerPayoffRaw strikePrice premium isCall p =
        -buyerPayoffRaw strikePrice premium isCall p ∧
      buyerPayoffRaw strikePrice premium isCall p +
        sellerPayoffRaw strikePrice premium isCall p = 0 ∧
      pt.buyerPayoff = round2 (buyerPayoffRaw strikePrice premium isCall p) ∧
      pt.sellerPayoff = round2 (sellerPayoffRaw strikePrice premium isCall p) ∧
      |pt.buyerPayoff + pt.sellerPayoff| ≤ 1 / 100 := by
  intro pt hpt
  rw [generateData_eq spotPrice strikePrice premium isCall hS hK] at hpt
  obtain ⟨k, -, rfl⟩ := List.mem_map.mp hpt
  refine ⟨_, rfl, ?_, sellerPayoffRaw_eq_neg _ _ _ _, ?_, rfl, rfl, ?_⟩
  · cases isCall <;> rfl
  · rw [sellerPayoffRaw_eq_neg]
    ring
  · show |round2 _ + round2 _| ≤ 1 / 100
    rw [sellerPayoffRaw_eq_neg]
    exact abs_round2_add_round2_neg _

/-- C5 witness: the claim instantiated on the curve for spot 4, strike 3,
premium 1, call side, at the curve's first sample point. -/
theorem payoff_zero_sum_witness : ∃ p : ℚ,
    (⟨0, -1, 1⟩ : PayoffPoint).price = round2 p ∧
    buyerPayoffRaw 3 1 true p = (if true then max 0 (p - 3) else max 0 (3 - p)) - 1 ∧
    sellerPayoffRaw 3 1 true p = -buyerPayoffRaw 3 1 true p ∧
    buyerPayoffRaw 3 1 true p + sellerPayoffRaw 3 1 true p = 0 ∧
    (⟨0, -1, 1⟩ : PayoffPoint).buyerPayoff = round2 (buyerPayoffRaw 3 1 true p) ∧
    (⟨0, -1, 1⟩ : PayoffPoint).sellerPayoff = round2 (sellerPayoffRaw 3 1 true p) ∧
    |(⟨0, -1, 1⟩ : PayoffPoint).buyerPayoff + (⟨0, -1, 1⟩ : PayoffPoint).sellerPayoff| ≤ 1 / 100 := by
  apply payoff_zero_sum 4 3 1 true (by norm_num) (by norm_num) ⟨0, -1, 1⟩
  rw [generateData_eq 4 3 1 true (by norm_num) (by norm_num)]
  refine List.mem_map.mpr ⟨0, ?_, ?_⟩
  · simp
  · show samplePoint 3 1 true _ = _
    norm_num [samplePoint, round2, buyerPayoffRaw, sellerPayoffRaw, round_eq,
      minPrice, maxPrice, priceStep]

/-- C6: for positive spot and strike the generated payoff curve is exactly
the 101 uniform samples of the range from `max 0 (K − 0.75·S)` to
`K + 0.75·S`: the k-th emitted point is the sample at
`minPrice + k·step` with `step = (maxPrice − minPrice) / 100`, both
endpoints are sampled (k = 0 and k = 100), consecutive samples differ by
exactly one step, the sampled prices strictly ascend, and the emitted
points are in ascending price order. -/
theorem payoff_sampling (spotPrice strikePrice premium : ℚ) (isCall : Bool)
    (hS : 0 < spotPrice) (hK : 0 < strikePrice) :
    minPrice spotPrice strikePrice = max 0 (strikePrice - spotPrice * 0.75) ∧
    maxPrice spotPrice strikePrice = strikePrice + spotPrice * 0.75 ∧
    priceStep spotPrice strikePrice =
      (maxPrice spotPrice strikePrice - minPrice spotPrice strikePrice) / 100 ∧
    (generateData spotPrice strikePrice premium isCall).length = 101 ∧
    generateData spotPrice strikePrice premium isCall =
      (List.range 101).map (fun k : ℕ => samplePoint strikePrice premium isCall
        (minPrice spotPrice strikePrice + (k : ℚ) * priceStep spotPrice strikePrice)) ∧
    minPrice spotPrice strikePrice + (0 : ℚ) * priceStep spotPrice strikePrice =
      minPrice spotPrice strikePrice ∧
    minPrice spotPrice strikePrice + (100 : ℚ) * priceStep spotPrice strikePrice =
      maxPrice spotPrice strikePrice ∧
    (∀ k : ℕ,
      (minPrice spotPrice strikePrice + ((k : ℚ) + 1) * priceStep spotPrice strikePrice) -
        (minPrice spotPrice strikePrice + (k : ℚ) * priceStep spotPrice strikePrice) =
        priceStep spotPrice strikePrice) ∧
    (∀ k : ℕ,
      minPrice spotPrice strikePrice + (k : ℚ) * priceStep spotPrice strikePrice <
        minPrice spotPrice strikePrice + ((k : ℚ) + 1) * priceStep spotPrice strikePrice) ∧
    List.Chain' (fun a b : PayoffPoint => a.price ≤ b.price)
      (generateData spotPrice strikePrice premium isCall) := by
  have hstep := priceStep_pos spotPrice strikePrice hS hK
  have heq := generateData_eq spotPrice strikePrice premium isCall hS hK
  refine ⟨rfl, rfl, rfl, ?_, heq, by ring, ?_, fun k => by ring, fun k => by nlinarith, ?_⟩
  · rw [heq]
    simp
  · unfold priceStep
    ring
  · rw [heq, List.chain'_map, List.chain'_range_succ]
    intro m hm
    apply round2_mono
    have : (m : ℚ) < (m.succ : ℚ) := by push_cast; linarith
    nlinarith

/-- C6 witness: the sample-count conjunct at spot 4, strike 3, premium 1,
call side. -/
theorem payoff_sampling_witness : (generateData 4 3 1 true).length = 101 :=
  (payoff_sampling 4 3 1 true (by norm_num) (by norm_num)).2.2.2.1

/-- C9: the instant path and the duration path use the identical 365-day
day-count convention: whenever the elapsed milliseconds of the instant
path equal the duration's total seconds times 1000, the two conversions
return the same year-fraction exactly; in particular a 24-hour duration
agrees with an expiry instant 24 hours past now. -/
theorem time_to_expiry_paths_agree (hours minutes seconds expiryMs nowMs : ℚ)
    (helapsed : expiryMs - nowMs = (hours * 3600 + minutes * 60 + seconds) * 1000) :
    dateToTimeToExpiry expiryMs nowMs = durationToTimeToExpiry hours minutes seconds ∧
    durationToTimeToExpiry 24 0 0 = dateToTimeToExpiry (nowMs + 24 * 60 * 60 * 1000) nowMs := by
  unfold dateToTimeToExpiry durationToTimeToExpiry
  constructor
  · rw [helapsed]
    ring
  · norm_num

/-- C9 witness: a 24-hour duration and an expiry 86400000 milliseconds
past epoch zero give identical year-fractions. -/
theorem time_to_expiry_paths_agree_witness :
    dateToTimeToExpiry 86400000 0 = durationToTimeToExpiry 24 0 0 ∧
    durationToTimeToExpiry 24 0 0 = dateToTimeToExpiry (0 + 24 * 60 * 60 * 1000) 0 :=
  time_to_expiry_paths_agree 24 0 0 86400000 0 (by norm_num)

/-- C10 counterexample: a valid response whose last listed volatility is
50.456 resolves with 50.46 — the value rounded by the source's
`toFixed(2)` — and not with the truncated value 50.45 the claim names. -/
theorem dvol_not_truncated :
    handleDVOLMessage ⟨some [((0 : ℚ), (50.456 : ℚ))], none⟩ 0 =
      Except.ok ⟨50.46, 0⟩ ∧
    truncate2 50.456 = 50.45 ∧
    handleDVOLMessage ⟨some [((0 : ℚ), (50.456 : ℚ))], none⟩ 0 ≠
      Except.ok ⟨truncate2 50.456, 0⟩ := by
  have h1 : handleDVOLMessage ⟨some [((0 : ℚ), (50.456 : ℚ))], none⟩ 0 =
      Except.ok ⟨round2 50.456, 0⟩ := by
    simp [handleDVOLMessage]
  have h2 : round2 (50.456 : ℚ) = 50.46 := by
    norm_num [round2, round_eq]
  have h3 : truncate2 (50.456 : ℚ) = 50.45 := by
    rw [truncate2]
    norm_num
  refine ⟨h1.trans (by rw [h2]), h3, ?_⟩
  rw [h1, h2, h3]
  intro hcontra
  rw [Except.ok.injEq, DVOLResponse.mk.injEq] at hcontra
  norm_num at hcontra

/-- C10 (amended): the handler of the first structurally valid response
with a non-empty ordered result list resolves with the last element's
volatility value rounded (not truncated) to 2 decimal places. -/
theorem dvol_resolves_rounded_last (data : DVOLMessage) (now : ℚ)
    (l : List (ℚ × ℚ)) (hres : data.result = some l) (hne : l ≠ []) :
    handleDVOLMessage data now = Except.ok ⟨round2 (l.getLast hne).2, now⟩ := by
  obtain ⟨r, e⟩ := data
  simp only at hres
  subst hres
  simp [handleDVOLMessage, hne]

/-- C10 witness: a concrete two-element response resolves with the last
value rounded to 2 decimal places. -/
theorem dvol_resolves_rounded_last_witness :
    handleDVOLMessage ⟨some [((1 : ℚ), (3 : ℚ)), ((2 : ℚ), (2.345 : ℚ))], none⟩ 7 =
      Except.ok ⟨2.35, 7⟩ := by
  have h := dvol_resolves_rounded_last ⟨some [((1 : ℚ), (3 : ℚ)), ((2 : ℚ), (2.345 : ℚ))], none⟩ 7
    [((1 : ℚ), (3 : ℚ)), ((2 : ℚ), (2.345 : ℚ))] rfl (by simp)
  rw [h]
  norm_num [List.getLast, round2, round_eq]

/-! ### Helper lemmas: the validity guard -/

theorem valid_guard {S K T σ : ℝ} (hS : 0 < S) (hK : 0 < K) (hT : 0 < T) (hσ : 0 < σ) :
    ¬(S ≤ 0 ∨ K ≤ 0 ∨ T ≤ 0 ∨ σ ≤ 0) := by
  push_neg
  exact ⟨hS, hK, hT, hσ⟩

/-- C3: on any input with S ≤ 0 or K ≤ 0 or T ≤ 0 or σ ≤ 0, with any rate
and side, the premium is exactly 0 and every Greek is exactly 0: the
guard is the outermost branch of both functions, taken before any
division, logarithm or square root is formed, and the result is a
defined value, not a failure. -/
theorem degenerate_inputs_zero (S K T σ r : ℝ) (isCall : Bool)
    (h : S ≤ 0 ∨ K ≤ 0 ∨ T ≤ 0 ∨ σ ≤ 0) :
    calculateOptionPremium S K T σ r isCall = 0 ∧
    calculateGreeks S K T σ r isCall = ⟨0, 0, 0, 0, 0⟩ := by
  unfold calculateOptionPremium calculateGreeks
  rw [if_pos h, if_pos h]
  exact ⟨rfl, rfl⟩

/-- C3 witness: the spec's degenerate example S = 100, K = 100, T = 0,
σ = 0.5, r = 0.05, call. -/
theorem degenerate_inputs_zero_witness :
    calculateOptionPremium 100 100 0 0.5 0.05 true = 0 ∧
    calculateGreeks 100 100 0 0.5 0.05 true = ⟨0, 0, 0, 0, 0⟩ :=
  degenerate_inputs_zero 100 100 0 0.5 0.05 true (Or.inr (Or.inr (Or.inl le_rfl)))

/-- C1: for every contract with S, K, T, σ all positive and any real
rate, the premium is `S·N(d1) − K·e^(−rT)·N(d2)` for a call and
`K·e^(−rT)·N(−d2) − S·N(−d1)` for a put, with
`d1 = (ln(S/K) + (r + σ²/2)·T)/(σ·√T)`, `d2 = d1 − σ·√T` and `N` the
implemented `normalCDF`. -/
theorem premium_black_scholes (S K T σ r : ℝ)
    (hS : 0 < S) (hK : 0 < K) (hT : 0 < T) (hσ : 0 < σ) :
    calculateOptionPremium S K T σ r true =
      S * normalCDF ((Real.log (S / K) + (r + σ ^ 2 / 2) * T) / (σ * Real.sqrt T)) -
        K * Real.exp (-r * T) *
          normalCDF ((Real.log (S / K) + (r + σ ^ 2 / 2) * T) / (σ * Real.sqrt T) -
            σ * Real.sqrt T) ∧
    calculateOptionPremium S K T σ r false =
      K * Real.exp (-r * T) *
          normalCDF (-((Real.log (S / K) + (r + σ ^ 2 / 2) * T) / (σ * Real.sqrt T) -
            σ * Real.sqrt T)) -
        S * normalCDF (-((Real.log (S / K) + (r + σ ^ 2 / 2) * T) / (σ * Real.sqrt T))) := by
  have hg := valid_guard hS hK hT hσ
  have hd1 : (Real.log (S / K) + (r + σ ^ 2 / 2) * T) / (σ * Real.sqrt T) = d1 S K T σ r := by
    unfold d1
    ring_nf
  have hd2 : d1 S K T σ r - σ * Real.sqrt T = d2 S K T σ r := rfl
  rw [hd1, hd2]
  unfold calculateOptionPremium
  rw [if_neg hg, if_neg hg]
  exact ⟨rfl, rfl⟩

/-- C1 witness: the pricing formulas instantiated at S = K = T = σ = 1,
r = 0 (call side conjunct extracted directly from the claim theorem). -/
theorem premium_black_scholes_witness :
    calculateOptionPremium 1 1 1 1 0 true =
      1 * normalCDF ((Real.log (1 / 1) + (0 + 1 ^ 2 / 2) * 1) / (1 * Real.sqrt 1)) -
        1 * Real.exp (-0 * 1) *
          normalCDF ((Real.log (1 / 1) + (0 + 1 ^ 2 / 2) * 1) / (1 * Real.sqrt 1) -
            1 * Real.sqrt 1) :=
  (premium_black_scholes 1 1 1 1 0 one_pos one_pos one_pos one_pos).1

/-- C2: for every valid contract the Greeks are
`delta = N(d1)` (call) and `N(d1) − 1` (put); `gamma = N′(d1)/(S·σ·√T)`
for both sides; `vega = S·N′(d1)·√T·0.01` for both sides;
`theta = (−S·σ·N′(d1)/(2√T) − r·K·e^(−rT)·N(d2))/365` (call) and
`(−S·σ·N′(d1)/(2√T) + r·K·e^(−rT)·N(−d2))/365` (put);
`rho = K·T·e^(−rT)·N(d2)·0.01` (call) and `−K·T·e^(−rT)·N(−d2)·0.01`
(put), with d1, d2 as in the pricing formula and N, N′ the implemented
`normalCDF` and `normalPDF`. -/
theorem greeks_formulas (S K T σ r : ℝ)
    (hS : 0 < S) (hK : 0 < K) (hT : 0 < T) (hσ : 0 < σ) :
    (calculateGreeks S K T σ r true).delta =
      normalCDF ((Real.log (S / K) + (r + σ ^ 2 / 2) * T) / (σ * Real.sqrt T)) ∧
    (calculateGreeks S K T σ r false).delta =
      normalCDF ((Real.log (S / K) + (r + σ ^ 2 / 2) * T) / (σ * Real.sqrt T)) - 1 ∧
    (∀ c : Bool, (calculateGreeks S K T σ r c).gamma =
      normalPDF ((Real.log (S / K) + (r + σ ^ 2 / 2) * T) / (σ * Real.sqrt T)) /
        (S * σ * Real.sqrt T)) ∧
    (∀ c : Bool, (calculateGreeks S K T σ r c).vega =
      S * normalPDF ((Real.log (S / K) + (r + σ ^ 2 / 2) * T) / (σ * Real.sqrt T)) *
        Real.sqrt T * 0.01) ∧
    (calculateGreeks S K T σ r true).theta =
      (-S * σ * normalPDF ((Real.log (S / K) + (r + σ ^ 2 / 2) * T) / (σ * Real.sqrt T)) /
          (2 * Real.sqrt T) -
        r * K * Real.exp (-r * T) *
          normalCDF ((Real.log (S / K) + (r + σ ^ 2 / 2) * T) / (σ * Real.sqrt T) -
            σ * Real.sqrt T)) / 365 ∧
    (calculateGreeks S K T σ r false).theta =
      (-S * σ * normalPDF ((Real.log (S / K) + (r + σ ^ 2 / 2) * T) / (σ * Real.sqrt T)) /
          (2 * Real.sqrt T) +
        r * K * Real.exp (-r * T) *
          normalCDF (-((Real.log (S / K) + (r + σ ^ 2 / 2) * T) / (σ * Real.sqrt T) -
            σ * Real.sqrt T))) / 365 ∧
    (calculateGreeks S K T σ r true).rho =
      K * T * Real.exp (-r * T) *
        normalCDF ((Real.log (S / K) + (r + σ ^ 2 / 2) * T) / (σ * Real.sqrt T) -
          σ * Real.sqrt T) * 0.01 ∧
    (calculateGreeks S K T σ r false).rho =
      -K * T * Real.exp (-r * T) *
        normalCDF (-((Real.log (S / K) + (r + σ ^ 2 / 2) * T) / (σ * Real.sqrt T) -
          σ * Real.sqrt T)) * 0.01 := by
  have hg := valid_guard hS hK hT hσ
  have hd1 : (Real.log (S / K) + (r + σ ^ 2 / 2) * T) / (σ * Real.sqrt T) = d1 S K T σ r := by
    unfold d1
    ring_nf
  have hd2 : d1 S K T σ r - σ * Real.sqrt T = d2 S K T σ r := rfl
  rw [hd1, hd2]
  refine ⟨?_, ?_, fun c => ?_, fun c => ?_, ?_, ?_, ?_, ?_⟩ <;>
    simp only [calculateGreeks, if_neg hg] <;>
    first
      | rfl
      | (cases c <;> rfl)
      | (norm_num
         try ring)

/-- C2 witness: the call-delta conjunct instantiated at
S = K = T = σ = 1, r = 0. -/
theorem greeks_formulas_witness :
    (calculateGreeks 1 1 1 1 0 true).delta =
      normalCDF ((Real.log (1 / 1) + (0 + 1 ^ 2 / 2) * 1) / (1 * Real.sqrt 1)) :=
  (greeks_formulas 1 1 1 1 0 one_pos one_pos one_pos one_pos).1

/-! ### Helper lemmas: the normal CDF approximation -/

theorem normalCDF_zero : normalCDF 0 = 0.5000000005 := by
  unfold normalCDF
  norm_num [Real.exp_zero, Real.sqrt_eq_zero]

theorem normalCDF_neg (x : ℝ) (hx : x ≠ 0) : normalCDF (-x) = 1 - normalCDF x := by
  unfold normalCDF
  rcases lt_or_gt_of_ne hx with h | h
  · rw [if_pos h, if_neg (by linarith : ¬-x < 0), abs_neg]
    ring
  · rw [if_neg (by linarith : ¬x < 0), if_pos (by linarith : -x < 0), abs_neg]
    ring

theorem quartic_pos (t : ℝ) (h0 : 0 ≤ t) (h1 : t ≤ 1) :
    0 < ((((1.061405429 : ℝ) * t + -1.453152027) * t + 1.421413741) * t + -0.284496736) * t +
      0.254829592 := by
  nlinarith [sq_nonneg (t * t - 0.6845 * t), sq_nonneg (t - 0.1539), sq_nonneg t,
    mul_nonneg (mul_nonneg h0 h0) (sub_nonneg.mpr h1)]

theorem quintic_lt_two (t : ℝ) (h0 : 0 ≤ t) (h1 : t ≤ 1) :
    (((((1.061405429 : ℝ) * t + -1.453152027) * t + 1.421413741) * t + -0.284496736) * t +
      0.254829592) * t < 2 := by
  have ht2 : t * t ≤ 1 := by nlinarith
  have ht3 : t * t * t ≤ 1 := by nlinarith
  have h4 : 0 ≤ t * t * t * t * (1.453152027 - 1.061405429 * t) :=
    mul_nonneg (by positivity) (by nlinarith)
  nlinarith [h4, ht3, ht2]

theorem erf_abs_lt_one (t E : ℝ) (ht0 : 0 < t) (ht1 : t ≤ 1) (hE0 : 0 < E) (hE1 : E ≤ 1) :
    |1 - (((((1.061405429 : ℝ) * t + -1.453152027) * t + 1.421413741) * t + -0.284496736) * t +
      0.254829592) * t * E| < 1 := by
  have hq := quartic_pos t ht0.le ht1
  have hq2 := quintic_lt_two t ht0.le ht1
  have hP0 : 0 < (((((1.061405429 : ℝ) * t + -1.453152027) * t + 1.421413741) * t +
      -0.284496736) * t + 0.254829592) * t := mul_pos hq ht0
  have hPE : (((((1.061405429 : ℝ) * t + -1.453152027) * t + 1.421413741) * t +
      -0.284496736) * t + 0.254829592) * t * E ≤
      (((((1.061405429 : ℝ) * t + -1.453152027) * t + 1.421413741) * t +
      -0.284496736) * t + 0.254829592) * t :=
    mul_le_of_le_one_right hP0.le hE1
  rw [abs_lt]
  constructor
  · nlinarith [hPE, hq2]
  · nlinarith [mul_pos hP0 hE0]

theorem half_one_add_mem (s e : ℝ) (hs : s = 1 ∨ s = -1) (he : |e| < 1) :
    0 < 0.5 * (1 + s * e) ∧ 0.5 * (1 + s * e) < 1 := by
  rw [abs_lt] at he
  rcases hs with hs | hs <;> subst hs <;> constructor <;> linarith [he.1, he.2]

theorem normalCDF_bounds (x : ℝ) : 0 < normalCDF x ∧ normalCDF x < 1 := by
  unfold normalCDF
  have hy0 : (0 : ℝ) ≤ |x| / Real.sqrt 2 := div_nonneg (abs_nonneg x) (Real.sqrt_nonneg 2)
  have hden : (1 : ℝ) ≤ 1 + 0.3275911 * (|x| / Real.sqrt 2) := by nlinarith
  have ht0 : 0 < 1 / (1 + 0.3275911 * (|x| / Real.sqrt 2)) :=
    div_pos one_pos (by linarith)
  have ht1 : 1 / (1 + 0.3275911 * (|x| / Real.sqrt 2)) ≤ 1 := by
    rw [div_le_one (by linarith)]
    linarith
  have hE0 : 0 < Real.exp (-((|x| / Real.sqrt 2) * (|x| / Real.sqrt 2))) := Real.exp_pos _
  have hE1 : Real.exp (-((|x| / Real.sqrt 2) * (|x| / Real.sqrt 2))) ≤ 1 := by
    have h := Real.exp_le_exp.mpr (show -((|x| / Real.sqrt 2) * (|x| / Real.sqrt 2)) ≤ 0 by
      nlinarith)
    simpa using h
  have herf := erf_abs_lt_one _ _ ht0 ht1 hE0 hE1
  exact half_one_add_mem _ _ (by split_ifs <;> simp) herf

theorem normalPDF_pos (x : ℝ) : 0 < normalPDF x := by
  unfold normalPDF
  positivity

theorem normalCDF_add_neg_bounds (y : ℝ) :
    1 ≤ normalCDF y + normalCDF (-y) ∧
      normalCDF y + normalCDF (-y) ≤ 1 + 1 / 1000000000 := by
  by_cases hy : y = 0
  · subst hy
    rw [neg_zero, normalCDF_zero]
    norm_num
  · rw [normalCDF_neg y hy]
    constructor <;> norm_num

/-- C4 counterexample: at x = 0 the implemented `normalCDF` returns
0.5000000005, not 0.5, and `normalCDF (−0) + normalCDF 0 ≠ 1`: the
claimed exact antisymmetry and midpoint value both fail at the explicit
input 0. -/
theorem normalCDF_not_antisymm_at_zero :
    normalCDF 0 ≠ 0.5 ∧ normalCDF (-0) + normalCDF 0 ≠ 1 := by
  rw [neg_zero, normalCDF_zero]
  norm_num

/-- C4 (amended): the implemented `normalCDF` satisfies
`normalCDF (−x) = 1 − normalCDF x` for every x ≠ 0; at x = 0 its value
is exactly 0.5000000005 — off 0.5 by the 5·10⁻¹⁰ residual of the
Abramowitz-Stegun coefficients — so the antisymmetry identity holds
everywhere except at 0, where it fails by 10⁻⁹. -/
theorem normalCDF_antisymm_off_zero :
    (∀ x : ℝ, x ≠ 0 → normalCDF (-x) = 1 - normalCDF x) ∧
      normalCDF 0 = 0.5000000005 :=
  ⟨normalCDF_neg, normalCDF_zero⟩

/-- C4 witness: the amended antisymmetry applied at x = 1. -/
theorem normalCDF_antisymm_off_zero_witness :
    normalCDF (-1) = 1 - normalCDF 1 :=
  normalCDF_antisymm_off_zero.1 1 one_ne_zero

/-- C8: for every valid contract the returned call delta lies strictly
in (0, 1), the returned put delta strictly in (−1, 0), and the returned
gamma and vega are nonnegative for either side. -/
theorem greeks_ranges (S K T σ r : ℝ)
    (hS : 0 < S) (hK : 0 < K) (hT : 0 < T) (hσ : 0 < σ) :
    (0 < (calculateGreeks S K T σ r true).delta ∧
      (calculateGreeks S K T σ r true).delta < 1) ∧
    (-1 < (calculateGreeks S K T σ r false).delta ∧
      (calculateGreeks S K T σ r false).delta < 0) ∧
    (∀ c : Bool, 0 ≤ (calculateGreeks S K T σ r c).gamma) ∧
    (∀ c : Bool, 0 ≤ (calculateGreeks S K T σ r c).vega) := by
  have hg := valid_guard hS hK hT hσ
  have hb := normalCDF_bounds (d1 S K T σ r)
  have hpdf : 0 < normalPDF (d1 S K T σ r) := normalPDF_pos _
  have hgam : 0 ≤ normalPDF (d1 S K T σ r) / (S * σ * Real.sqrt T) :=
    div_nonneg hpdf.le (by positivity)
  have hveg : 0 ≤ S * normalPDF (d1 S K T σ r) * Real.sqrt T * 0.01 := by
    have h1 : 0 ≤ S * normalPDF (d1 S K T σ r) := mul_nonneg hS.le hpdf.le
    have h2 : 0 ≤ S * normalPDF (d1 S K T σ r) * Real.sqrt T :=
      mul_nonneg h1 (Real.sqrt_nonneg T)
    nlinarith
  refine ⟨⟨?_, ?_⟩, ⟨?_, ?_⟩, fun c => ?_, fun c => ?_⟩ <;>
    simp only [calculateGreeks, if_neg hg] <;>
    first
      | (show 0 < normalCDF (d1 S K T σ r)
         exact hb.1)
      | (show normalCDF (d1 S K T σ r) < 1
         exact hb.2)
      | (show -1 < normalCDF (d1 S K T σ r) - 1
         linarith [hb.1])
      | (show normalCDF (d1 S K T σ r) - 1 < 0
         linarith [hb.2])
      | exact hgam
      | exact hveg

/-- C8 witness: the ranges at S = K = T = σ = 1, r = 0, with the call
delta conjunct spelled out. -/
theorem greeks_ranges_witness :
    0 < (calculateGreeks 1 1 1 1 0 true).delta ∧
      (calculateGreeks 1 1 1 1 0 true).delta < 1 :=
  (greeks_ranges 1 1 1 1 0 one_pos one_pos one_pos one_pos).1

/-- C7: put-call parity for the implemented pricing function: on any
valid contract the call premium minus the put premium differs from
`S − K·e^(−rT)` by at most `10⁻⁶·(S + K·e^(−rT))`, a relative tolerance
of 10⁻⁶ on the scale of the contract (the exact discrepancy is the
10⁻⁹-sized residual of the normal-CDF approximation at 0, and is 0
whenever d1 and d2 are nonzero). -/
theorem put_call_parity (S K T σ r : ℝ)
    (hS : 0 < S) (hK : 0 < K) (hT : 0 < T) (hσ : 0 < σ) :
    |calculateOptionPremium S K T σ r true - calculateOptionPremium S K T σ r false -
        (S - K * Real.exp (-r * T))| ≤
      1 / 1000000 * (S + K * Real.exp (-r * T)) := by
  have hg := valid_guard hS hK hT hσ
  have hc : calculateOptionPremium S K T σ r true =
      S * normalCDF (d1 S K T σ r) -
        K * Real.exp (-r * T) * normalCDF (d2 S K T σ r) := by
    unfold calculateOptionPremium
    rw [if_neg hg, if_pos rfl]
  have hp : calculateOptionPremium S K T σ r false =
      K * Real.exp (-r * T) * normalCDF (-d2 S K T σ r) -
        S * normalCDF (-d1 S K T σ r) := by
    unfold calculateOptionPremium
    rw [if_neg hg, if_neg (by simp : ¬false = true)]
  have hA := normalCDF_add_neg_bounds (d1 S K T σ r)
  have hB := normalCDF_add_neg_bounds (d2 S K T σ r)
  have hD : 0 < K * Real.exp (-r * T) := by positivity
  rw [hc, hp]
  have key : S * normalCDF (d1 S K T σ r) -
      K * Real.exp (-r * T) * normalCDF (d2 S K T σ r) -
      (K * Real.exp (-r * T) * normalCDF (-d2 S K T σ r) -
        S * normalCDF (-d1 S K T σ r)) -
      (S - K * Real.exp (-r * T)) =
      S * ((normalCDF (d1 S K T σ r) + normalCDF (-d1 S K T σ r)) - 1) -
        K * Real.exp (-r * T) *
          ((normalCDF (d2 S K T σ r) + normalCDF (-d2 S K T σ r)) - 1) := by
    ring
  rw [key, abs_le]
  have h1 : 0 ≤ S * ((normalCDF (d1 S K T σ r) + normalCDF (-d1 S K T σ r)) - 1) :=
    mul_nonneg hS.le (by linarith [hA.1])
  have h2 : S * ((normalCDF (d1 S K T σ r) + normalCDF (-d1 S K T σ r)) - 1) ≤
      S * (1 / 1000000000) :=
    mul_le_mul_of_nonneg_left (by linarith [hA.2]) hS.le
  have h3 : 0 ≤ K * Real.exp (-r * T) *
      ((normalCDF (d2 S K T σ r) + normalCDF (-d2 S K T σ r)) - 1) :=
    mul_nonneg hD.le (by linarith [hB.1])
  have h4 : K * Real.exp (-r * T) *
      ((normalCDF (d2 S K T σ r) + normalCDF (-d2 S K T σ r)) - 1) ≤
      K * Real.exp (-r * T) * (1 / 1000000000) :=
    mul_le_mul_of_nonneg_left (by linarith [hB.2]) hD.le
  constructor <;> nlinarith [h1, h2, h3, h4, hS, hD]

/-- C7 witness: the parity bound at S = K = T = σ = 1, r = 0. -/
theorem put_call_parity_witness :
    |calculateOptionPremium 1 1 1 1 0 true - calculateOptionPremium 1 1 1 1 0 false -
        (1 - 1 * Real.exp (-0 * 1))| ≤
      1 / 1000000 * (1 + 1 * Real.exp (-0 * 1)) :=
  put_call_parity 1 1 1 1 0 one_pos one_pos one_pos one_pos

end OptionBloom
